import Mathlib

/-!
Verification development for the mole-balance notebook
(rxns-book/mole-balance.ipynb).

The notebook is a sequence of small numeric examples: a CSTR steady state
solved algebraically (cell 10) and by a root finder (cell 14), an
uncertainty-propagation variant (cell 18), a batch reactor (cell 26) and a
PFR (cell 36) solved by an initial-value ODE integrator, and a harder PFR
inverse problem solved by three strategies: quadrature plus root finding
(cell 44), event-terminated integration (cell 48), and cubic interpolation
plus root finding (cell 52).

The numeric primitives the notebook calls (scipy fsolve, odeint, quad,
interp1d, pycse odelay, the uncertainties package) are external library
code, not part of this repository.  Following the design contracts of the
specification (sections 4.1 to 4.6), they are modelled here as executable
exact-rational algorithms of the same kind and of sufficient accuracy:

* `fsolveModel` models fsolve, per the contract of section 4.1, as a
  Newton iteration whose derivative is a forward difference (MINPACK hybrd
  likewise builds its Jacobian from forward differences); the iteration
  counts used below are enough for the iteration to converge far below the
  default library tolerance on the problems at hand;
* `odeint` models scipy.integrate.odeint per the black-box contract of
  section 4.2 ("any adaptive-step explicit or implicit method of
  sufficient accuracy satisfies the contract") as a classical fourth-order
  Runge-Kutta march over the requested output grid with a fixed number of
  internal substeps per output interval;
* `simpson` models scipy.integrate.quad (section 4.4) as composite Simpson
  quadrature; the unused error-estimate component of the contract is
  omitted because the notebook discards it;
* `odelay` models pycse.odelay (section 4.3, terminal event with
  direction 0) as the same Runge-Kutta march plus bisection refinement of
  the first bracketing interval on which the event function changes sign;
* `lagrange4` supports the cubic-interpolation step of section 4.5, which
  leaves the smoothing method open; the cubic interpolant through the four
  grid points bracketing the target is used;
* `UF` models the uncertainties package (section 4.6) as first-order
  propagation of the sensitivity to the single uncertain input.

The numeric core is written once, generically in the carrier of the
arithmetic.  Claims that need algebraic reasoning are stated over ℚ.
Claims that need large concrete evaluations (the three strategies of the
harder PFR problem) are stated over `Q`, a transparent exact-rational
carrier on integer pairs whose operations reduce inside the kernel; its
agreement with ℚ is proved in the `Q.toRat` lemmas below.

All reactor functions, constants and grids are translated directly from
the notebook cells, one namespace per cell.
-/

set_option linter.unusedVariables false
set_option maxRecDepth 100000
set_option maxHeartbeats 4000000

section NumericCore

variable {α : Type} [Add α] [Sub α] [Mul α] [Div α] [Neg α] [Zero α] [One α]
  [NatCast α] [LE α] [∀ a b : α, Decidable (a ≤ b)]

/-- One classical fourth-order Runge-Kutta step for dy/dt = f y t from
state y at time t with step size h. -/
def rk4Step (f : α → α → α) (y t h : α) : α :=
  let k1 := f y t
  let k2 := f (y + h / 2 * k1) (t + h / 2)
  let k3 := f (y + h / 2 * k2) (t + h / 2)
  let k4 := f (y + h * k3) (t + h)
  y + h / 6 * (k1 + 2 * k2 + 2 * k3 + k4)

/-- Iterate `rk4Step` a given number of times with fixed step size h. -/
def rk4Iter (f : α → α → α) (h : α) : ℕ → α → α → α
  | 0, y, _ => y
  | n + 1, y, t => rk4Iter f h n (rk4Step f y t h) (t + h)

/-- Advance the numerical solution of dy/dt = f y t from (t1, y) to t2
using nSub equal Runge-Kutta substeps. -/
def integrateTo (f : α → α → α) (y t1 t2 : α) (nSub : ℕ) : α :=
  rk4Iter f ((t2 - t1) / (nSub : α)) nSub y t1

/-- March the numerical solution across the remaining grid points,
returning the value at each one.  Helper for `odeint`. -/
def odeintAux (f : α → α → α) (nSub : ℕ) : α → α → List α → List α
  | _, _, [] => []
  | y, t, t2 :: rest =>
    let y2 := integrateTo f y t t2 nSub
    y2 :: odeintAux f nSub y2 t2 rest

/-- Model of scipy.integrate.odeint per the black-box contract of
specification section 4.2: given a derivative function, an initial value
and a grid of evaluation points, return one solution value per grid point,
the first being the initial value.  Each output interval is integrated
with nSub classical Runge-Kutta substeps. -/
def odeint (f : α → α → α) (y0 : α) (ts : List α) (nSub : ℕ) : List α :=
  match ts with
  | [] => []
  | t0 :: rest => y0 :: odeintAux f nSub y0 t0 rest

/-- Carry the numerical solution from the first grid point across all the
remaining ones and return the value at the final requested point. -/
def integrateAlong (f : α → α → α) (nSub : ℕ) : α → α → List α → α
  | y, _, [] => y
  | y, t, t2 :: rest => integrateAlong f nSub (integrateTo f y t t2 nSub) t2 rest

/-- Model of numpy.linspace: n evenly spaced points from a to b. -/
def linspace (a b : α) (n : ℕ) : List α :=
  (List.range n).map (fun i => a + (b - a) * (i : α) / ((n - 1 : ℕ) : α))

/-- Forward-difference step used by the root-finder model. -/
def fsolveEps : α := 1 / 1000000

/-- Newton iteration with forward-difference derivative.  Helper for
`fsolveModel`. -/
def fsolveIter (f : α → α) : ℕ → α → α
  | 0, x => x
  | n + 1, x =>
    let fx := f x
    let d := f (x + fsolveEps) - fx
    fsolveIter f n (x - fx * fsolveEps / d)

/-- Model of scipy.optimize.fsolve per specification section 4.1: iterate
Newton steps with a forward-difference derivative from the initial
guess. -/
def fsolveModel (f : α → α) (x0 : α) (iters : ℕ) : α :=
  fsolveIter f iters x0

/-- Weighted interior sum of composite Simpson quadrature.  Helper for
`simpson`. -/
def simpsonSum (f : α → α) (a h : α) : ℕ → α
  | 0 => 0
  | i + 1 =>
    (if (i + 1) % 2 = 1 then (4 : α) else 2) * f (a + ((i + 1 : ℕ) : α) * h)
      + simpsonSum f a h i

/-- Model of scipy.integrate.quad per specification section 4.4: composite
Simpson quadrature of f from a to b with n subintervals. -/
def simpson (f : α → α) (a b : α) (n : ℕ) : α :=
  let h := (b - a) / (n : α)
  (f a + f b + simpsonSum f a h (n - 1)) * h / 3

/-- Bisection refinement of an event bracket: the event function g has
changed sign on [t1, t2], where y1 is the state at t1; each level
evaluates the state at the midpoint by Runge-Kutta integration and keeps
the half interval on which g changes sign.  Helper for `odelay`. -/
def eventRefine (f g : α → α → α) : ℕ → α → α → α → α
  | 0, _, t1, t2 => (t1 + t2) / 2
  | n + 1, y1, t1, t2 =>
    let tm := (t1 + t2) / 2
    let ym := integrateTo f y1 t1 tm 1
    if g y1 t1 * g ym tm ≤ 0 then eventRefine f g n y1 t1 tm
    else eventRefine f g n ym tm t2

/-- Walk the grid until the event function changes sign, then refine the
crossing by bisection.  Helper for `odelay`. -/
def odelayAux (f g : α → α → α) (nBis : ℕ) : α → α → List α → α
  | _, t, [] => t
  | y, t, t2 :: rest =>
    let y2 := integrateTo f y t t2 1
    if g y t * g y2 t2 ≤ 0 then eventRefine f g nBis y t t2
    else odelayAux f g nBis y2 t2 rest

/-- Model of pycse.odelay per specification section 4.3.  Modelled from
the spec: pycse is external library code; per the spec, integration
terminates when the (terminal, direction 0) event function crosses zero,
the crossing being located between the bracketing steps; here the
crossing location is refined by nBis bisection levels of the integrated
solution and returned. -/
def odelay (f g : α → α → α) (y0 : α) (ts : List α) (nBis : ℕ) : α :=
  match ts with
  | [] => 0
  | t0 :: rest => odelayAux f g nBis y0 t0 rest

/-- Cubic Lagrange interpolant through four points, evaluated at x.
Supports the section 4.5 interpolation model. -/
def lagrange4 (x0 y0 x1 y1 x2 y2 x3 y3 x : α) : α :=
  y0 * ((x - x1) * (x - x2) * (x - x3)) / ((x0 - x1) * (x0 - x2) * (x0 - x3))
    + y1 * ((x - x0) * (x - x2) * (x - x3)) / ((x1 - x0) * (x1 - x2) * (x1 - x3))
    + y2 * ((x - x0) * (x - x1) * (x - x3)) / ((x2 - x0) * (x2 - x1) * (x2 - x3))
    + y3 * ((x - x0) * (x - x1) * (x - x2)) / ((x3 - x0) * (x3 - x1) * (x3 - x2))

end NumericCore

/-- Exact rational numbers as plain integer pairs (numerator and
denominator).  Every operation normalizes through `mkQ`, so denominators
of all constructed values are positive; the `Q.toRat` lemmas below prove
the operations agree with ℚ.  This carrier exists because its operations
reduce inside the kernel, which makes the large concrete evaluations of
the harder PFR problem checkable by `decide`. -/
structure Q where
  n : ℤ
  d : ℤ
deriving DecidableEq

/-- Normalize an integer pair: zero denominator maps to zero, the sign
moves to the numerator, and the pair is divided by its gcd. -/
def mkQ (n d : ℤ) : Q :=
  if d = 0 then ⟨0, 1⟩
  else
    let s : ℤ := if d < 0 then -1 else 1
    let n2 := s * n
    let d2 := s * d
    let g : ℤ := (Int.gcd n2 d2 : ℤ)
    ⟨n2 / g, d2 / g⟩

instance : Zero Q := ⟨⟨0, 1⟩⟩

instance : One Q := ⟨⟨1, 1⟩⟩

instance : NatCast Q := ⟨fun m => ⟨(m : ℤ), 1⟩⟩

instance : Neg Q := ⟨fun a => ⟨-a.n, a.d⟩⟩

instance : Add Q := ⟨fun a b => mkQ (a.n * b.d + b.n * a.d) (a.d * b.d)⟩

instance : Sub Q := ⟨fun a b => mkQ (a.n * b.d - b.n * a.d) (a.d * b.d)⟩

instance : Mul Q := ⟨fun a b => mkQ (a.n * b.n) (a.d * b.d)⟩

instance : Div Q := ⟨fun a b => mkQ (a.n * b.d) (a.d * b.n)⟩

instance : LE Q := ⟨fun a b => a.n * b.d ≤ b.n * a.d⟩

instance : LT Q := ⟨fun a b => a.n * b.d < b.n * a.d⟩

instance (a b : Q) : Decidable (a ≤ b) := inferInstanceAs (Decidable (_ ≤ _))

instance (a b : Q) : Decidable (a < b) := inferInstanceAs (Decidable (_ < _))

/-- Absolute value on the exact-rational carrier. -/
def Q.abs (a : Q) : Q := if a.n < 0 then ⟨-a.n, a.d⟩ else a

/-- The rational number denoted by an integer pair. -/
def Q.toRat (a : Q) : ℚ := (a.n : ℚ) / (a.d : ℚ)

/-- Root-finder with an explicit convergence report, per specification
sections 4.1 and 7(a).  Modelled from the spec: scipy.optimize.fsolve is
external library code; per the spec the result is "a real number
approximating the root, or a non-convergence condition (reported via a
status flag or exception)", including the last iterate.  The returned
flag is true exactly when the residual at the returned point is within
the tolerance; in either case the returned point is the last iterate. -/
def fsolveFull (f : ℚ → ℚ) (x0 tol : ℚ) (iters : ℕ) : ℚ × Bool :=
  let x := fsolveModel f x0 iters
  if -tol ≤ f x ∧ f x ≤ tol then (x, true) else (x, false)

/-- Amplification factor of one Runge-Kutta step on the linear equation
dy/dt = c y with step h, evaluated at w = c h: the degree-four Taylor
polynomial of the exponential. -/
def decayFactor (w : ℚ) : ℚ :=
  1 + w + w ^ 2 / 2 + w ^ 3 / 6 + w ^ 4 / 24

/-- Value with uncertainty.  Modelled from the spec (section 4.6):
the uncertainties package is external library code; per the spec a
physical quantity is a (nominal, standard deviation) pair combined by
first-order linearized error propagation.  With a single uncertain input
(only k is uncertain in the notebook) this is exactly tracked by the
nominal value together with the first-order sensitivity to that input
times its standard deviation; the propagated standard deviation is the
absolute value of that field. -/
structure UF where
  nom : ℚ
  delta : ℚ

/-- Exact quantity with no uncertainty. -/
def UF.const (c : ℚ) : UF := ⟨c, 0⟩

/-- Sum with first-order propagation. -/
def UF.add (a b : UF) : UF := ⟨a.nom + b.nom, a.delta + b.delta⟩

/-- Product with first-order propagation (product rule). -/
def UF.mul (a b : UF) : UF :=
  ⟨a.nom * b.nom, a.nom * b.delta + b.nom * a.delta⟩

/-- Quotient with first-order propagation (quotient rule). -/
def UF.div (a b : UF) : UF :=
  ⟨a.nom / b.nom, (a.delta * b.nom - b.delta * a.nom) / (b.nom * b.nom)⟩

/-- Propagated standard deviation. -/
def UF.sd (a : UF) : ℚ := |a.delta|

/-- The cell-14 steady-state residual with its parameters made explicit:
ra = -k Ca, Fa = v0 Ca, residual Fa0 - Fa + V ra. -/
def cstrResidual (k Fa0 v0 V Ca : ℚ) : ℚ :=
  let ra := -k * Ca
  let Fa := v0 * Ca
  Fa0 - Fa + V * ra

/-- One solver invocation of each kind the notebook makes: a root find
on any residual from any initial guess (cells 14, 44, 52), an
initial-value ODE integration (cells 26, 36, 52), a definite quadrature
(cell 44), an event-terminated integration (cell 48), an interpolant
evaluation (cell 52), and an uncertainty propagation through the cell-18
expression Fa0 / (v0 + V k).  Used to state that solver invocations do
not interact. -/
inductive SolverCall where
  | rootFind (f : ℚ → ℚ) (guess : ℚ) (iters : ℕ) : SolverCall
  | ivp (f : ℚ → ℚ → ℚ) (y0 : ℚ) (ts : List ℚ) (nSub : ℕ) : SolverCall
  | quadrature (f : ℚ → ℚ) (a b : ℚ) (n : ℕ) : SolverCall
  | eventIvp (f g : ℚ → ℚ → ℚ) (y0 : ℚ) (ts : List ℚ) (nBis : ℕ) : SolverCall
  | interpolate (x0 y0 x1 y1 x2 y2 x3 y3 x : ℚ) : SolverCall
  | propagate (Fa0 v0 V : ℚ) (kU : UF) : SolverCall

/-- Result of one solver invocation, a function of that invocation
alone: the root found, the integration trace, the quadrature value, the
event location, the interpolated value, or the propagated nominal value
and standard deviation. -/
def runCall : SolverCall → List ℚ
  | SolverCall.rootFind f g iters => [fsolveModel f g iters]
  | SolverCall.ivp f y0 ts nSub => odeint f y0 ts nSub
  | SolverCall.quadrature f a b n => [simpson f a b n]
  | SolverCall.eventIvp f g y0 ts nBis => [odelay f g y0 ts nBis]
  | SolverCall.interpolate x0 y0 x1 y1 x2 y2 x3 y3 x =>
      [lagrange4 x0 y0 x1 y1 x2 y2 x3 y3 x]
  | SolverCall.propagate Fa0 v0 V kU =>
      let Cae := UF.div (UF.const Fa0) (UF.add (UF.const v0) (UF.mul (UF.const V) kU))
      [Cae.nom, Cae.sd]

/-- Run a sequence of solver invocations in order. -/
def runAll : List SolverCall → List (List ℚ)
  | [] => []
  | c :: rest => runCall c :: runAll rest

namespace CSTR

/-- Rate constant, 1/hr (cells 10 and 14). -/
def k : ℚ := 23 / 100

/-- Inlet molar flow, mol/hr. -/
def Fa0 : ℚ := 1

/-- Volumetric flow, L/hr. -/
def v0 : ℚ := 5 / 2

/-- Reactor volume, L. -/
def V : ℚ := 10

/-- Exit concentration computed algebraically in cell 10:
Ca_exit = Fa0 / (v0 + V * k). -/
def Ca_exit : ℚ := Fa0 / (v0 + V * k)

/-- Steady-state residual of cell 14: ra = -k Ca, Fa = v0 Ca, and the
residual is Fa0 - Fa + V ra. -/
def func (Ca : ℚ) : ℚ :=
  let ra := -k * Ca
  let Fa := v0 * Ca
  Fa0 - Fa + V * ra

/-- Initial guess used in cell 14, mol/L. -/
def guess : ℚ := 1

/-- Root returned by the root-finder model applied to the cell-14
residual from the cell-14 guess. -/
def ans : ℚ := fsolveModel func guess 2

end CSTR

namespace UProp

/-- Uncertain rate constant of cell 18: ufloat(0.23, 0.1), so nominal
23/100 with standard deviation 1/10 (the sensitivity of k to itself is
one). -/
def k : UF := ⟨23 / 100, 1 / 10⟩

/-- Inlet molar flow, mol/hr (exact). -/
def Fa0 : ℚ := 1

/-- Volumetric flow, L/hr (exact). -/
def v0 : ℚ := 5 / 2

/-- Reactor volume, L (exact). -/
def V : ℚ := 10

/-- Cell-18 exit concentration Cae = Fa0 / (v0 + V * k) computed in
value-with-uncertainty arithmetic. -/
def Cae : UF := UF.div (UF.const Fa0) (UF.add (UF.const v0) (UF.mul (UF.const V) k))

end UProp

namespace Batch

/-- Rate constant, 1/hr (cell 26). -/
def k : ℚ := 23 / 100

/-- Initial concentration, mol/L. -/
def Ca0 : ℚ := 2

/-- Batch reactor ODE of cell 26: dCa/dt = -k Ca. -/
def ode (Ca t : ℚ) : ℚ := -k * Ca

/-- Time grid of cell 26: linspace(0, 1), fifty points. -/
def tspan : List ℚ := linspace 0 1 50

/-- Solution trace returned by the integrator model. -/
def sol : List ℚ := odeint ode Ca0 tspan 1

/-- Last entry of the solution: the concentration at t = 1 hour. -/
def CaFinal : ℚ := sol.getLastD 0

end Batch

namespace PFR

/-- Inlet concentration, mol/L (cell 36). -/
def Ca0 : ℚ := 3

/-- Volumetric flowrate, L/min. -/
def v0 : ℚ := 10

/-- Rate constant, 1/min. -/
def k : ℚ := 23 / 100

/-- PFR ODE of cell 36: dFa/dV = -k Ca with Ca = Fa / v0. -/
def ode (Fa V : ℚ) : ℚ :=
  let Ca := Fa / v0;
  -k * Ca

/-- Volume grid of cell 36: the two endpoints 0 and 100 L. -/
def Vspan : List ℚ := [0, 100]

/-- Solution trace from Fa(0) = Ca0 v0, using twenty internal substeps
over the single output interval. -/
def sol : List ℚ := odeint ode (Ca0 * v0) Vspan 20

/-- Last entry of the solution: the exit molar flow. -/
def Fa_exit : ℚ := sol.getLastD 0

/-- Printed exit concentration Fa_exit / v0. -/
def exitConc : ℚ := Fa_exit / v0

end PFR

namespace PFRQuad

/-- Rate constant, 1/min (cell 44). -/
def k : Q := 23 / 100

/-- Volumetric flowrate, L/min. -/
def nu : Q := 10

/-- Inlet concentration, mol/L. -/
def Ca0 : Q := 3

/-- Inlet molar flow. -/
def Fa0 : Q := Ca0 * nu

/-- Target exit molar flow: 0.30 nu. -/
def Fa : Q := 3 / 10 * nu

/-- First integrand of cell 44: 1 / Fa. -/
def integrand1 (Fa : Q) : Q := 1 / Fa

/-- Second integrand of cell 44: the constant -k / nu. -/
def integrand2 (V : Q) : Q := -k / nu

/-- Cell-44 residual in V: quad(integrand1, Fa0, Fa) minus
quad(integrand2, 0, V), with quad modelled by 200-interval Simpson
quadrature. -/
def func (V : Q) : Q :=
  simpson integrand1 Fa0 Fa 200 - simpson integrand2 0 V 200

/-- Initial guess of cell 44, Liters. -/
def guess : Q := 120

/-- Volume returned by the root-finder model on the cell-44 residual. -/
def sol : Q := fsolveModel func guess 2

end PFRQuad

namespace PFRevent

/-- Inlet concentration, mol/L (cell 48). -/
def Ca0 : Q := 3

/-- Volumetric flowrate, L/min. -/
def v0 : Q := 10

/-- Rate constant, 1/min. -/
def k : Q := 23 / 100

/-- Target exit molar flow: 0.3 v0. -/
def Fa_Exit : Q := 3 / 10 * v0

/-- PFR ODE of cell 48: dFa/dV = -k Ca with Ca = Fa / v0. -/
def ode (Fa V : Q) : Q :=
  let Ca := Fa / v0;
  -k * Ca

/-- Event value of cell 48: Fa - Fa_Exit (terminal, direction 0). -/
def event1 (Fa V : Q) : Q := Fa - Fa_Exit

/-- Volume grid of cell 48: linspace(0, 200), fifty points. -/
def Vspan : List Q := linspace 0 200 50

/-- Event location returned by the odelay model: the volume at which the
integrated molar flow reaches Fa_Exit, refined by 24 bisection levels. -/
def Vsol : Q := odelay ode event1 (Ca0 * v0) Vspan 24

end PFRevent

namespace PFRInterp

/-- Inlet concentration, mol/L (cell 52). -/
def Ca0 : Q := 3

/-- Volumetric flowrate, L/min. -/
def v0 : Q := 10

/-- Rate constant, 1/min. -/
def k : Q := 23 / 100

/-- PFR ODE of cell 52: r = k Ca, ra = -r with Ca = Fa / v0. -/
def ode (Fa V : Q) : Q :=
  let Ca := Fa / v0;
  let r := k * Ca;
  let ra := -r;
  ra

/-- Volume grid of cell 52: linspace(0, 200), fifty points. -/
def Vspan : List Q := linspace 0 200 50

/-- Solution trace of cell 52 on the volume grid. -/
def sol : List Q := odeint ode (Ca0 * v0) Vspan 1

/-- Target exit concentration, mol/L. -/
def Ca_exit : Q := 3 / 10

/-- Target exit molar flow. -/
def Fa_exit : Q := Ca_exit * v0

/-- Cubic interpolant of the grid solution.  Modelled from the spec:
scipy.interpolate.interp1d kind cubic is external library code and
section 4.5 leaves the smoothing method open among linear, cubic and
spline; the model is the cubic interpolant through the four grid points
(indices 23 to 26) bracketing the target exit flow, which lies between
grid entries 24 and 25. -/
def interp_func (x : Q) : Q :=
  lagrange4 (Vspan.getD 23 0) (sol.getD 23 0) (Vspan.getD 24 0) (sol.getD 24 0)
    (Vspan.getD 25 0) (sol.getD 25 0) (Vspan.getD 26 0) (sol.getD 26 0) x

/-- Cell-52 objective: zero when the interpolated flow equals Fa_exit. -/
def objective (V : Q) : Q := interp_func V - Fa_exit

/-- Volume returned by the root-finder model on the objective from the
cell-52 guess of 100. -/
def V_sol : Q := fsolveModel objective 100 3

end PFRInterp

/-- The cell-52 PFR decay ODE translated at the rational carrier
(r = k Ca, ra = -r with Ca = Fa / v0, k = 0.23, v0 = 10); the
computational copy used for the cell-52 root find is `PFRInterp.ode`. -/
def pfrDecayOde (Fa V : ℚ) : ℚ :=
  let Ca := Fa / 10;
  let r := 23 / 100 * Ca;
  let ra := -r;
  ra

/-- The cell-52 volume grid at the rational carrier: linspace(0, 200)
with fifty points. -/
def pfrGrid : List ℚ := linspace 0 200 50

/-- Normalization denotes the expected rational: mkQ n d denotes n / d
(with the ℚ convention that division by zero is zero). -/
lemma Q.toRat_mkQ (n d : ℤ) : (mkQ n d).toRat = (n : ℚ) / (d : ℚ) := by
  unfold mkQ
  by_cases hd : d = 0
  · simp [hd, Q.toRat]
  · rw [if_neg hd]
    set s : ℤ := if d < 0 then -1 else 1 with hs
    have hs0 : s ≠ 0 := by
      rw [hs]
      split <;> norm_num
    have hg0 : Int.gcd (s * n) (s * d) ≠ 0 := by
      rw [Ne, Int.gcd_eq_zero_iff, not_and_or]
      right
      exact mul_ne_zero hs0 hd
    have hgq : ((Int.gcd (s * n) (s * d) : ℤ) : ℚ) ≠ 0 := by
      exact_mod_cast hg0
    have h1 : (Int.gcd (s * n) (s * d) : ℤ) ∣ s * n := Int.gcd_dvd_left
    have h2 : (Int.gcd (s * n) (s * d) : ℤ) ∣ s * d := Int.gcd_dvd_right
    simp only [Q.toRat]
    rw [Int.cast_div h1 hgq, Int.cast_div h2 hgq]
    have hsq : (s : ℚ) ≠ 0 := by exact_mod_cast hs0
    have hdq : (d : ℚ) ≠ 0 := by exact_mod_cast hd
    push_cast
    field_simp
    ring

/-- Addition on the carrier agrees with rational addition. -/
lemma Q.toRat_add (a b : Q) (ha : a.d ≠ 0) (hb : b.d ≠ 0) :
    (a + b).toRat = a.toRat + b.toRat := by
  show (mkQ (a.n * b.d + b.n * a.d) (a.d * b.d)).toRat = _
  rw [Q.toRat_mkQ]
  simp only [Q.toRat]
  have haq : (a.d : ℚ) ≠ 0 := by exact_mod_cast ha
  have hbq : (b.d : ℚ) ≠ 0 := by exact_mod_cast hb
  push_cast
  field_simp

/-- Subtraction on the carrier agrees with rational subtraction. -/
lemma Q.toRat_sub (a b : Q) (ha : a.d ≠ 0) (hb : b.d ≠ 0) :
    (a - b).toRat = a.toRat - b.toRat := by
  show (mkQ (a.n * b.d - b.n * a.d) (a.d * b.d)).toRat = _
  rw [Q.toRat_mkQ]
  simp only [Q.toRat]
  have haq : (a.d : ℚ) ≠ 0 := by exact_mod_cast ha
  have hbq : (b.d : ℚ) ≠ 0 := by exact_mod_cast hb
  push_cast
  field_simp
  ring

/-- Multiplication on the carrier agrees with rational multiplication. -/
lemma Q.toRat_mul (a b : Q) (ha : a.d ≠ 0) (hb : b.d ≠ 0) :
    (a * b).toRat = a.toRat * b.toRat := by
  show (mkQ (a.n * b.n) (a.d * b.d)).toRat = _
  rw [Q.toRat_mkQ]
  simp only [Q.toRat]
  have haq : (a.d : ℚ) ≠ 0 := by exact_mod_cast ha
  have hbq : (b.d : ℚ) ≠ 0 := by exact_mod_cast hb
  push_cast
  field_simp

/-- Negation on the carrier agrees with rational negation. -/
lemma Q.toRat_neg (a : Q) : (-a).toRat = -a.toRat := by
  show (Q.mk (-a.n) a.d).toRat = _
  simp only [Q.toRat]
  push_cast
  rw [neg_div]

/-- Division on the carrier agrees with rational division, including the
division-by-zero convention. -/
lemma Q.toRat_div (a b : Q) (ha : a.d ≠ 0) (hb : b.d ≠ 0) :
    (a / b).toRat = a.toRat / b.toRat := by
  show (mkQ (a.n * b.d) (a.d * b.n)).toRat = _
  rw [Q.toRat_mkQ]
  simp only [Q.toRat]
  have haq : (a.d : ℚ) ≠ 0 := by exact_mod_cast ha
  have hbq : (b.d : ℚ) ≠ 0 := by exact_mod_cast hb
  by_cases hbn : b.n = 0
  · simp [hbn]
  · have hbnq : (b.n : ℚ) ≠ 0 := by exact_mod_cast hbn
    push_cast
    field_simp

/-- Order on the carrier agrees with the rational order, for the positive
denominators that all constructed values have. -/
lemma Q.le_iff_toRat (a b : Q) (ha : 0 < a.d) (hb : 0 < b.d) :
    a ≤ b ↔ a.toRat ≤ b.toRat := by
  show a.n * b.d ≤ b.n * a.d ↔ _
  simp only [Q.toRat]
  rw [div_le_div_iff₀ (by exact_mod_cast ha) (by exact_mod_cast hb)]
  constructor <;> intro h <;> exact_mod_cast h

/-- C2: for the harder PFR inverse problem, each of the three solution
strategies of cells 44, 48 and 52 (quadrature plus root-find on func,
event-terminated integration via odelay with event1, and cubic
interpolation of the ODE grid solution plus root-find on objective)
yields a reactor volume within 0.1 L of 100.11 L, and any two of the
three results agree within 0.01 L of each other. -/
theorem C2_three_pfr_strategies_agree :
    (Q.abs (PFRQuad.sol - 10011 / 100) ≤ 1 / 10 ∧
      Q.abs (PFRevent.Vsol - 10011 / 100) ≤ 1 / 10 ∧
      Q.abs (PFRInterp.V_sol - 10011 / 100) ≤ 1 / 10) ∧
    (Q.abs (PFRQuad.sol - PFRevent.Vsol) ≤ 1 / 100 ∧
      Q.abs (PFRQuad.sol - PFRInterp.V_sol) ≤ 1 / 100 ∧
      Q.abs (PFRevent.Vsol - PFRInterp.V_sol) ≤ 1 / 100) := by
  refine ⟨⟨?_, ?_, ?_⟩, ?_, ?_, ?_⟩ <;> decide

/-- Rational bounds on exp(-23/100), from the degree-six Taylor partial
sum and the Mathlib remainder estimate. -/
lemma exp_neg023_bounds :
    (794533 / 1000000 : ℝ) ≤ Real.exp (-(23 / 100)) ∧
      Real.exp (-(23 / 100)) ≤ (794534 / 1000000 : ℝ) := by
  have hx : |(-(23 / 100) : ℝ)| ≤ 1 := by
    rw [abs_of_nonpos] <;> norm_num
  have h := @Real.exp_bound (-(23 / 100)) hx 6 (by norm_num)
  have hs : ∑ m ∈ Finset.range 6, (-(23 / 100) : ℝ) ^ m / m.factorial
      = 953440084157 / 1200000000000 := by
    simp [Finset.sum_range_succ, Nat.factorial]
    norm_num
  have ha : |(-(23 / 100) : ℝ)| = 23 / 100 := by
    rw [abs_of_nonpos] <;> norm_num
  rw [hs, ha] at h
  have h2 : |Real.exp (-(23 / 100)) - 953440084157 / 1200000000000|
      ≤ (23 / 100 : ℝ) ^ 6 * (7 / (720 * 6)) := by
    convert h using 3
  rw [abs_le] at h2
  constructor <;> nlinarith [h2.1, h2.2]

/-- A point where the residual vanishes is a fixed point of the Newton
iteration. -/
lemma fsolveIter_fixed (f : ℚ → ℚ) (x : ℚ) (hx : f x = 0) :
    ∀ n, fsolveIter f n x = x := by
  intro n
  induction n with
  | zero => rfl
  | succ m ih =>
    simp only [fsolveIter, hx, zero_mul, zero_div, sub_zero]
    exact ih

/-- On a linear residual b - s x with s nonzero, the forward-difference
Newton iteration reaches the exact root b / s after one step, from any
initial guess, and stays there. -/
lemma fsolve_linear_conv (f : ℚ → ℚ) (s b : ℚ) (hf : ∀ x, f x = b - s * x)
    (hs : s ≠ 0) : ∀ g n, fsolveIter f (n + 1) g = b / s := by
  intro g n
  have heps : (fsolveEps : ℚ) ≠ 0 := by norm_num [fsolveEps]
  have hstep : g - f g * fsolveEps / (f (g + fsolveEps) - f g) = b / s := by
    simp only [hf]
    have hd : b - s * (g + fsolveEps) - (b - s * g) = -(s * fsolveEps) := by ring
    rw [hd]
    field_simp
    ring
  simp only [fsolveIter]
  rw [hstep]
  apply fsolveIter_fixed
  rw [hf]
  field_simp

/-- The cell-14 residual is the linear function 1 - (24/5) Ca. -/
lemma cstr_func_linear : ∀ x, CSTR.func x = 1 - 24 / 5 * x := by
  intro x
  simp only [CSTR.func, CSTR.k, CSTR.Fa0, CSTR.v0, CSTR.V]
  ring

/-- The root-finder model on the cell-14 residual returns 5/24 from any
guess, for any positive iteration count. -/
lemma cstr_fsolve_conv (g : ℚ) (n : ℕ) :
    fsolveModel CSTR.func g (n + 1) = 5 / 24 := by
  have h := fsolve_linear_conv CSTR.func (24 / 5) 1 cstr_func_linear (by norm_num) g n
  simp only [fsolveModel]
  rw [h]
  norm_num

/-- The generic CSTR residual is the linear function Fa0 - (v0 + V k) Ca. -/
lemma cstrResidual_linear (kk fa0 vv0 vv : ℚ) :
    ∀ x, cstrResidual kk fa0 vv0 vv x = fa0 - (vv0 + vv * kk) * x := by
  intro x
  simp only [cstrResidual]
  ring

/-- C1: for the CSTR steady-state problem with k = 0.23, Fa0 = 1.0,
v0 = 2.5, V = 10, the exit concentration computed by the program equals
the closed form Fa0 / (v0 + V k) (about 0.2083 mol/L) within 1e-4
relative tolerance, and the root returned by the root-finder applied to
the residual equals the closed form within the same tolerance. -/
theorem C1_cstr_exit_and_root_match_closed_form :
    |CSTR.Ca_exit - CSTR.Fa0 / (CSTR.v0 + CSTR.V * CSTR.k)| ≤
        1 / 10000 * (CSTR.Fa0 / (CSTR.v0 + CSTR.V * CSTR.k)) ∧
      |CSTR.ans - CSTR.Fa0 / (CSTR.v0 + CSTR.V * CSTR.k)| ≤
        1 / 10000 * (CSTR.Fa0 / (CSTR.v0 + CSTR.V * CSTR.k)) := by
  have hcf : CSTR.Fa0 / (CSTR.v0 + CSTR.V * CSTR.k) = 5 / 24 := by
    norm_num [CSTR.Fa0, CSTR.v0, CSTR.V, CSTR.k]
  have h1 : CSTR.Ca_exit = 5 / 24 := by
    norm_num [CSTR.Ca_exit, CSTR.Fa0, CSTR.v0, CSTR.V, CSTR.k]
  have h2 : CSTR.ans = 5 / 24 := cstr_fsolve_conv CSTR.guess 1
  rw [hcf, h1, h2, sub_self, abs_zero]
  norm_num

/-- C5: with k = 0.23 plus or minus 0.10 and Fa0, v0, V exact, first-order
propagation through Cae = Fa0 / (v0 + V k) yields standard deviation
sigma_k Fa0 V / (v0 + V k)^2, which is about 0.04 mol/L within 10
percent. -/
theorem C5_uncertainty_propagation :
    UProp.Cae.sd = 1 / 10 * UProp.Fa0 * UProp.V / (UProp.v0 + UProp.V * UProp.k.nom) ^ 2 ∧
      |UProp.Cae.sd - 4 / 100| ≤ 1 / 10 * (4 / 100) := by
  have hk : UProp.k.nom = 23 / 100 := rfl
  have hδ : UProp.Cae.delta = -(25 / 576) := by
    norm_num [UProp.Cae, UProp.Fa0, UProp.v0, UProp.V, UProp.k,
      UF.div, UF.add, UF.mul, UF.const]
  have h : UProp.Cae.sd = 25 / 576 := by
    simp only [UF.sd]
    rw [hδ, abs_neg, abs_of_nonneg]
    norm_num
  constructor
  · rw [h, hk]
    norm_num [UProp.Fa0, UProp.V, UProp.v0]
  · rw [h, abs_le]
    constructor <;> norm_num

/-- C7: the root-finder model reports its convergence status faithfully:
the returned flag is true exactly when the residual at the returned point
is within tolerance, the returned point is always the last iterate (so a
non-convergence report includes the last iterate), and on the notebook
steady-state residual every invocation with at least one iteration and a
nonnegative tolerance converges to the exact root, so the result is an
approximate root rather than a silently wrong value. -/
theorem C7_root_finder_reports_convergence (f : ℚ → ℚ) (x0 tol : ℚ) (iters : ℕ) :
    ((fsolveFull f x0 tol iters).2 = true ↔
      -tol ≤ f (fsolveModel f x0 iters) ∧ f (fsolveModel f x0 iters) ≤ tol) ∧
    (fsolveFull f x0 tol iters).1 = fsolveModel f x0 iters ∧
    (0 ≤ tol → ∀ g : ℚ,
      (fsolveFull CSTR.func g tol (iters + 1)).2 = true ∧
      (fsolveFull CSTR.func g tol (iters + 1)).1 =
        CSTR.Fa0 / (CSTR.v0 + CSTR.V * CSTR.k)) := by
  refine ⟨?_, ?_, ?_⟩
  · by_cases h : -tol ≤ f (fsolveModel f x0 iters) ∧ f (fsolveModel f x0 iters) ≤ tol
    · simp [fsolveFull, h]
    · simp [fsolveFull, h]
  · by_cases h : -tol ≤ f (fsolveModel f x0 iters) ∧ f (fsolveModel f x0 iters) ≤ tol
    · simp [fsolveFull, h]
    · simp [fsolveFull, h]
  · intro htol g
    have hx : fsolveModel CSTR.func g (iters + 1) = 5 / 24 := cstr_fsolve_conv g iters
    have hfx : CSTR.func (5 / 24) = 0 := by
      rw [cstr_func_linear]
      norm_num
    have hcond : -tol ≤ CSTR.func (fsolveModel CSTR.func g (iters + 1)) ∧
        CSTR.func (fsolveModel CSTR.func g (iters + 1)) ≤ tol := by
      rw [hx, hfx]
      constructor <;> linarith
    have hcf : CSTR.Fa0 / (CSTR.v0 + CSTR.V * CSTR.k) = 5 / 24 := by
      norm_num [CSTR.Fa0, CSTR.v0, CSTR.V, CSTR.k]
    constructor
    · simp [fsolveFull, hcond]
    · rw [hcf]
      simp only [fsolveFull, hx]
      split <;> rfl

/-- C7 witness: a concrete invocation on the notebook residual converges
and returns the closed-form root with a true flag. -/
theorem C7_witness :
    (fsolveFull CSTR.func 1 (1 / 1000000) 2).2 = true ∧
    (fsolveFull CSTR.func 1 (1 / 1000000) 2).1 =
      CSTR.Fa0 / (CSTR.v0 + CSTR.V * CSTR.k) :=
  (C7_root_finder_reports_convergence CSTR.func 1 (1 / 1000000) 1).2.2
    (by norm_num) 1

/-- C8: every solver in the notebook (root-find, ODE integration,
quadrature, event-terminated integration, interpolation, uncertainty
propagation — each a `SolverCall` constructor) is deterministic and
shares no hidden state: running a sequence of invocations is the same as
running each alone (the result at each position depends only on that
invocation), sequences compose, and equal invocations give equal
results. -/
theorem C8_solvers_deterministic_no_shared_state :
    (∀ l1 l2 : List SolverCall, runAll (l1 ++ l2) = runAll l1 ++ runAll l2) ∧
    (∀ (pre post : List SolverCall) (c : SolverCall),
      (runAll (pre ++ c :: post)).getD pre.length [] = runCall c) ∧
    (∀ c c' : SolverCall, c = c' → runCall c = runCall c') := by
  refine ⟨?_, ?_, ?_⟩
  · intro l1 l2
    induction l1 with
    | nil => simp [runAll]
    | cons c rest ih => simp [runAll, ih]
  · intro pre post c
    induction pre with
    | nil => simp [runAll]
    | cons d rest ih => simpa [runAll] using ih
  · intro c c' h
    rw [h]

/-- C8 witness: a concrete pair of identical root-find invocations gives
identical results, and a concrete root-find keeps its result when run
after concrete invocations of the five other solver kinds (ODE
integration, quadrature, event-terminated integration, interpolation,
uncertainty propagation). -/
theorem C8_witness :
    runCall (SolverCall.rootFind CSTR.func 1 2) =
      runCall (SolverCall.rootFind CSTR.func 1 2) ∧
    (runAll ([SolverCall.ivp Batch.ode 2 [0, 1] 1,
        SolverCall.quadrature (fun x => 1 / x) 30 3 200,
        SolverCall.eventIvp Batch.ode (fun y t => y - 1) 2 [0, 1] 4,
        SolverCall.interpolate 0 0 1 1 2 2 3 3 (1 / 2),
        SolverCall.propagate 1 (5 / 2) 10 ⟨23 / 100, 1 / 10⟩] ++
        SolverCall.rootFind CSTR.func 1 2 :: [])).getD 5 [] =
      runCall (SolverCall.rootFind CSTR.func 1 2) :=
  ⟨C8_solvers_deterministic_no_shared_state.2.2 _ _ rfl,
    C8_solvers_deterministic_no_shared_state.2.1
      [SolverCall.ivp Batch.ode 2 [0, 1] 1,
        SolverCall.quadrature (fun x => 1 / x) 30 3 200,
        SolverCall.eventIvp Batch.ode (fun y t => y - 1) 2 [0, 1] 4,
        SolverCall.interpolate 0 0 1 1 2 2 3 3 (1 / 2),
        SolverCall.propagate 1 (5 / 2) 10 ⟨23 / 100, 1 / 10⟩] [] _⟩

/-- C9: for all parameters with v0 + V k positive, the CSTR residual is
strictly decreasing (hence linear with negative slope), its unique root
is Fa0 / (v0 + V k), and the root-finder model returns that root from
every initial guess, for every positive iteration count. -/
theorem C9_cstr_residual_unique_root (kk fa0 vv0 vv : ℚ)
    (h : 0 < vv0 + vv * kk) :
    (∀ a b : ℚ, a < b →
      cstrResidual kk fa0 vv0 vv b < cstrResidual kk fa0 vv0 vv a) ∧
    (∀ Ca : ℚ, cstrResidual kk fa0 vv0 vv Ca = 0 ↔ Ca = fa0 / (vv0 + vv * kk)) ∧
    (∀ (g : ℚ) (n : ℕ),
      fsolveModel (cstrResidual kk fa0 vv0 vv) g (n + 1) = fa0 / (vv0 + vv * kk)) := by
  have hlin := cstrResidual_linear kk fa0 vv0 vv
  have hne : vv0 + vv * kk ≠ 0 := ne_of_gt h
  refine ⟨?_, ?_, ?_⟩
  · intro a b hab
    rw [hlin a, hlin b]
    have := mul_lt_mul_of_pos_left hab h
    linarith
  · intro Ca
    rw [hlin Ca]
    constructor
    · intro h0
      rw [eq_div_iff hne]
      linear_combination -h0
    · intro h0
      rw [h0]
      field_simp
  · intro g n
    have := fsolve_linear_conv (cstrResidual kk fa0 vv0 vv) (vv0 + vv * kk) fa0
      hlin hne g n
    simpa [fsolveModel] using this

/-- C9 witness: the notebook parameters satisfy the slope condition, and
the conclusions hold there. -/
theorem C9_witness :
    0 < (5 / 2 : ℚ) + 10 * (23 / 100) ∧
    ((∀ a b : ℚ, a < b →
      cstrResidual (23 / 100) 1 (5 / 2) 10 b < cstrResidual (23 / 100) 1 (5 / 2) 10 a) ∧
    (∀ Ca : ℚ, cstrResidual (23 / 100) 1 (5 / 2) 10 Ca = 0 ↔
      Ca = 1 / (5 / 2 + 10 * (23 / 100))) ∧
    (∀ (g : ℚ) (n : ℕ),
      fsolveModel (cstrResidual (23 / 100) 1 (5 / 2) 10) g (n + 1) =
        1 / (5 / 2 + 10 * (23 / 100)))) :=
  ⟨by norm_num, C9_cstr_residual_unique_root (23 / 100) 1 (5 / 2) 10 (by norm_num)⟩


/-- Concrete value of the batch-reactor trace endpoint, by evaluation of
the integrator model. -/
lemma batch_CaFinal_val : Batch.CaFinal = 64401324398757725041172447644799643402326891520300519376092811684469969451597072269614241508895577640485237494731364609276224252713125195458160768049227278252098431616616608489415092165048499040245470950590796325059704570162332091728584888881356453663023177141898706405662942883395564204993520062078485160215601529104993285719607042074329112102118405455232645616514760786084799009594127408358861950681202018270434578888241927870188966310971816501830448589374923486955808505005088084212038422102926918181894777384753138880954311033210156601342183394611663810368914047507421204649440007100099449549222752151141014070615441650568551626896998857703412887442140234506843770349405405868591883765455520586321584735573800402591550008754308348129559848598280512195927689522451750700851766801452830961/40527753763836143691325500118845162732697919931492676099941002572235695499000058892787915308405829116181176648870145446742683994684838713911926146119082467371920127547490139102632506769215813200436220155499402398741437213541994722371966321275316944980119612841479388778154322156055724023506143355356119725254307377896667458548981998315858901885432144444403484546604831507458107408132992859647456051200000000000000000000000000000000000000000000000000000000000000000000000000000000000000000000000000000000000000000000000000000000000000000000000000000000000000000000000000000000000000000000000000000000000000000000000000000000000000000000000000000000000000000000000000000000000000000000000000000000000000000000000000000000000000000000000000000000000000000000000000000000000000000000000000000000 := by
  norm_num [Batch.CaFinal, Batch.sol, Batch.ode, Batch.Ca0, Batch.k, Batch.tspan,
    linspace, List.range_succ, odeint, odeintAux, integrateTo, rk4Iter, rk4Step,
    List.getLastD]

/-- Concrete value of the printed PFR exit concentration, by evaluation
of the integrator model. -/
lemma pfr_exitConc_val : PFR.exitConc = 4192228458421730316541986409039994948653626013292491705169383541229095485950562611950722843530520675176207376877690000371644690866654990991457647898981784912877307848313136304695691063578152190932453203/13937965749081639463459823920405225941237760000000000000000000000000000000000000000000000000000000000000000000000000000000000000000000000000000000000000000000000000000000000000000000000000000000000000000 := by
  norm_num [PFR.exitConc, PFR.Fa_exit, PFR.sol, PFR.ode, PFR.Ca0, PFR.v0, PFR.k,
    PFR.Vspan, odeint, odeintAux, integrateTo, rk4Iter, rk4Step, List.getLastD]

/-- C3: for the batch reactor with k = 0.23 and Ca0 = 2.0, the last entry
of the numerical solution from t = 0 to t = 1 matches the analytical
value Ca0 exp(-k t) at t = 1 (about 1.589 mol/L) within 1e-3 relative
tolerance. -/
theorem C3_batch_matches_analytic_decay :
    |(Batch.CaFinal : ℝ) - (Batch.Ca0 : ℝ) * Real.exp (-(Batch.k : ℝ) * 1)| ≤
      1 / 1000 * ((Batch.Ca0 : ℝ) * Real.exp (-(Batch.k : ℝ) * 1)) := by
  obtain ⟨hE1, hE2⟩ := exp_neg023_bounds
  have hk : (Batch.k : ℝ) = 23 / 100 := by norm_num [Batch.k]
  have hca : (Batch.Ca0 : ℝ) = 2 := by norm_num [Batch.Ca0]
  have harg : (-(23 / 100 : ℝ)) * 1 = -(23 / 100) := by norm_num
  have hL : (Batch.CaFinal : ℝ) = 64401324398757725041172447644799643402326891520300519376092811684469969451597072269614241508895577640485237494731364609276224252713125195458160768049227278252098431616616608489415092165048499040245470950590796325059704570162332091728584888881356453663023177141898706405662942883395564204993520062078485160215601529104993285719607042074329112102118405455232645616514760786084799009594127408358861950681202018270434578888241927870188966310971816501830448589374923486955808505005088084212038422102926918181894777384753138880954311033210156601342183394611663810368914047507421204649440007100099449549222752151141014070615441650568551626896998857703412887442140234506843770349405405868591883765455520586321584735573800402591550008754308348129559848598280512195927689522451750700851766801452830961/40527753763836143691325500118845162732697919931492676099941002572235695499000058892787915308405829116181176648870145446742683994684838713911926146119082467371920127547490139102632506769215813200436220155499402398741437213541994722371966321275316944980119612841479388778154322156055724023506143355356119725254307377896667458548981998315858901885432144444403484546604831507458107408132992859647456051200000000000000000000000000000000000000000000000000000000000000000000000000000000000000000000000000000000000000000000000000000000000000000000000000000000000000000000000000000000000000000000000000000000000000000000000000000000000000000000000000000000000000000000000000000000000000000000000000000000000000000000000000000000000000000000000000000000000000000000000000000000000000000000000000000000 := by
    rw [batch_CaFinal_val]
    norm_num
  rw [hk, hca, harg, hL, abs_le]
  constructor <;> linarith [hE1, hE2]

/-- C4: for the PFR with Ca0 = 3.0, v0 = 10, k = 0.23 and V = 100, the
exit concentration computed from the numerical molar-flow solution
matches Ca0 exp(-k V / v0) (about 0.3008 mol/L) within 1e-3 relative
tolerance. -/
theorem C4_pfr_exit_matches_analytic_decay :
    |(PFR.exitConc : ℝ) - (PFR.Ca0 : ℝ) * Real.exp (-(PFR.k : ℝ) * 100 / (PFR.v0 : ℝ))| ≤
      1 / 1000 * ((PFR.Ca0 : ℝ) * Real.exp (-(PFR.k : ℝ) * 100 / (PFR.v0 : ℝ))) := by
  obtain ⟨hE1, hE2⟩ := exp_neg023_bounds
  have hk : (PFR.k : ℝ) = 23 / 100 := by norm_num [PFR.k]
  have hca : (PFR.Ca0 : ℝ) = 3 := by norm_num [PFR.Ca0]
  have hv : (PFR.v0 : ℝ) = 10 := by norm_num [PFR.v0]
  have harg : (-(23 / 100 : ℝ)) * 100 / 10 = (10 : ℕ) * (-(23 / 100)) := by
    push_cast
    ring
  rw [hk, hca, hv, harg, Real.exp_nat_mul]
  have hE0 : (0 : ℝ) ≤ 794533 / 1000000 := by norm_num
  have hp1 : (794533 / 1000000 : ℝ) ^ 10 ≤ Real.exp (-(23 / 100)) ^ 10 :=
    pow_le_pow_left₀ hE0 hE1 10
  have hp2 : Real.exp (-(23 / 100)) ^ 10 ≤ (794534 / 1000000 : ℝ) ^ 10 :=
    pow_le_pow_left₀ (le_trans hE0 hE1) hE2 10
  have hq1 : (1002580 / 10000000 : ℝ) ≤ (794533 / 1000000 : ℝ) ^ 10 := by norm_num
  have hq2 : ((794534 / 1000000 : ℝ)) ^ 10 ≤ 1002594 / 10000000 := by norm_num
  have hL : (PFR.exitConc : ℝ) = 4192228458421730316541986409039994948653626013292491705169383541229095485950562611950722843530520675176207376877690000371644690866654990991457647898981784912877307848313136304695691063578152190932453203/13937965749081639463459823920405225941237760000000000000000000000000000000000000000000000000000000000000000000000000000000000000000000000000000000000000000000000000000000000000000000000000000000000000000 := by
    rw [pfr_exitConc_val]
    norm_num
  rw [hL, abs_le]
  constructor <;> linarith [hp1, hp2, hq1, hq2]

/-- The integrator model returns one value per grid point. -/
lemma odeintAux_length (f : ℚ → ℚ → ℚ) (n : ℕ) :
    ∀ (ts : List ℚ) (y t : ℚ), (odeintAux f n y t ts).length = ts.length := by
  intro ts
  induction ts with
  | nil => intro y t; rfl
  | cons t2 rest ih =>
    intro y t
    simp [odeintAux, ih]

/-- Unfolding of the integrator model over the first grid interval. -/
lemma odeint_cons (f : ℚ → ℚ → ℚ) (n : ℕ) (y t0 t1 : ℚ) (rest : List ℚ) :
    odeint f y (t0 :: t1 :: rest) n =
      y :: odeint f (integrateTo f y t0 t1 n) (t1 :: rest) n := by
  simp [odeint, odeintAux]

/-- Each output entry after the first is obtained by integrating from the
previous output entry across the corresponding grid interval. -/
lemma odeint_getD_step (f : ℚ → ℚ → ℚ) (n : ℕ) :
    ∀ (rest : List ℚ) (t0 y : ℚ) (i : ℕ), i + 1 < (t0 :: rest).length →
      (odeint f y (t0 :: rest) n).getD (i + 1) 0 =
        integrateTo f ((odeint f y (t0 :: rest) n).getD i 0)
          ((t0 :: rest).getD i 0) ((t0 :: rest).getD (i + 1) 0) n := by
  intro rest
  induction rest with
  | nil =>
    intro t0 y i hi
    simp at hi
  | cons t1 rest2 ih =>
    intro t0 y i hi
    rw [odeint_cons]
    match i with
    | 0 => simp [odeint, List.getD_cons_zero, List.getD_cons_succ]
    | j + 1 =>
      have h2 : j + 1 < (t1 :: rest2).length := by
        simpa using hi
      have H := ih t1 (integrateTo f y t0 t1 n) j h2
      simp only [List.getD_cons_succ] at H ⊢
      exact H

/-- The last output entry is the integrator solution carried to the final
requested grid point. -/
lemma odeint_getLastD (f : ℚ → ℚ → ℚ) (n : ℕ) :
    ∀ (rest : List ℚ) (t0 y d : ℚ),
      (odeint f y (t0 :: rest) n).getLastD d = integrateAlong f n y t0 rest := by
  intro rest
  induction rest with
  | nil =>
    intro t0 y d
    simp [odeint, odeintAux, integrateAlong]
  | cons t1 rest2 ih =>
    intro t0 y d
    rw [odeint_cons, List.getLastD_cons]
    exact ih t1 (integrateTo f y t0 t1 n) y

/-- C6: for every derivative function, initial value and grid, the
integrator model returns exactly one value per requested grid point, in
grid order: the output has the same length as the grid, its first entry
is the initial value, each later entry is obtained from its predecessor
by integrating across the corresponding grid interval, and the last
entry is the numerical solution carried to the final requested point. -/
theorem C6_odeint_one_value_per_point (f : ℚ → ℚ → ℚ) (y0 : ℚ) (ts : List ℚ) (n : ℕ) :
    (odeint f y0 ts n).length = ts.length ∧
    (∀ t0 rest, ts = t0 :: rest →
      (odeint f y0 ts n).head? = some y0 ∧
      (odeint f y0 ts n).getLastD 0 = integrateAlong f n y0 t0 rest) ∧
    (∀ i : ℕ, i + 1 < ts.length →
      (odeint f y0 ts n).getD (i + 1) 0 =
        integrateTo f ((odeint f y0 ts n).getD i 0) (ts.getD i 0) (ts.getD (i + 1) 0) n) := by
  refine ⟨?_, ?_, ?_⟩
  · cases ts with
    | nil => rfl
    | cons t0 rest => simp [odeint, odeintAux_length]
  · intro t0 rest h
    subst h
    exact ⟨by simp [odeint], odeint_getLastD f n rest t0 y0 0⟩
  · intro i hi
    cases ts with
    | nil => simp at hi
    | cons t0 rest => exact odeint_getD_step f n rest t0 y0 i hi

/-- C6 witness: the conclusions at a concrete derivative function,
initial value and two-point grid. -/
theorem C6_witness :
    (odeint Batch.ode 2 [0, 1 / 2] 1).length = ([0, 1 / 2] : List ℚ).length ∧
    (odeint Batch.ode 2 [0, 1 / 2] 1).head? = some 2 ∧
    (odeint Batch.ode 2 [0, 1 / 2] 1).getLastD 0 = integrateAlong Batch.ode 1 2 0 [1 / 2] ∧
    (odeint Batch.ode 2 [0, 1 / 2] 1).getD (0 + 1) 0 =
      integrateTo Batch.ode ((odeint Batch.ode 2 [0, 1 / 2] 1).getD 0 0)
        (([0, 1 / 2] : List ℚ).getD 0 0) (([0, 1 / 2] : List ℚ).getD (0 + 1) 0) 1 := by
  obtain ⟨h1, h2, h3⟩ := C6_odeint_one_value_per_point Batch.ode 2 [0, 1 / 2] 1
  obtain ⟨h2a, h2b⟩ := h2 0 [1 / 2] rfl
  exact ⟨h1, h2a, h2b, h3 0 (by simp)⟩

/-- One Runge-Kutta interval of a linear decay equation multiplies the
state by the decay factor of the interval. -/
lemma integrateTo_one_linear (f : ℚ → ℚ → ℚ) (c : ℚ) (hf : ∀ y t, f y t = c * y)
    (y t1 t2 : ℚ) : integrateTo f y t1 t2 1 = y * decayFactor (c * (t2 - t1)) := by
  simp only [integrateTo, rk4Iter, rk4Step, hf, decayFactor, Nat.cast_one, div_one]
  ring

/-- Along a grid whose every interval has decay factor strictly between
zero and one, the integrator trace of a linear decay equation stays
positive and strictly decreases. -/
lemma odeintAux_pos_decr (f : ℚ → ℚ → ℚ) (c : ℚ) (hf : ∀ y t, f y t = c * y) :
    ∀ (ts : List ℚ) (y t : ℚ), 0 < y →
      List.Chain (fun a b => 0 < decayFactor (c * (b - a)) ∧ decayFactor (c * (b - a)) < 1) t ts →
      (∀ x ∈ odeintAux f 1 y t ts, 0 < x) ∧
        List.Chain' (fun a b => b < a) (y :: odeintAux f 1 y t ts) := by
  intro ts
  induction ts with
  | nil =>
    intro y t hy _
    constructor
    · intro x hx
      simp [odeintAux] at hx
    · simp [odeintAux]
  | cons t2 rest ih =>
    intro y t hy hch
    rw [List.chain_cons] at hch
    obtain ⟨⟨hpos, hlt⟩, hch2⟩ := hch
    have hstep : odeintAux f 1 y t (t2 :: rest) =
        y * decayFactor (c * (t2 - t)) ::
          odeintAux f 1 (y * decayFactor (c * (t2 - t))) t2 rest := by
      simp [odeintAux, integrateTo_one_linear f c hf]
    have hy2 : 0 < y * decayFactor (c * (t2 - t)) := mul_pos hy hpos
    obtain ⟨ihpos, ihch⟩ := ih (y * decayFactor (c * (t2 - t))) t2 hy2 hch2
    have hdec : y * decayFactor (c * (t2 - t)) < y := mul_lt_of_lt_one_right hy hlt
    rw [hstep]
    constructor
    · intro x hx
      rcases List.mem_cons.mp hx with h | h
      · rw [h]
        exact hy2
      · exact ihpos x h
    · exact List.chain'_cons.mpr ⟨hdec, ihch⟩

/-- Trace version of `odeintAux_pos_decr`, for the full integrator
output including the initial value. -/
lemma odeint_pos_decr (f : ℚ → ℚ → ℚ) (c : ℚ) (hf : ∀ y t, f y t = c * y)
    (t0 : ℚ) (rest : List ℚ) (y0 : ℚ) (h0 : 0 < y0)
    (hch : List.Chain
      (fun a b => 0 < decayFactor (c * (b - a)) ∧ decayFactor (c * (b - a)) < 1) t0 rest) :
    (∀ x ∈ odeint f y0 (t0 :: rest) 1, 0 < x) ∧
      List.Chain' (fun a b => b < a) (odeint f y0 (t0 :: rest) 1) := by
  have h := odeintAux_pos_decr f c hf rest y0 t0 h0 hch
  have hu : odeint f y0 (t0 :: rest) 1 = y0 :: odeintAux f 1 y0 t0 rest := by
    simp [odeint]
  constructor
  · intro x hx
    rw [hu] at hx
    rcases List.mem_cons.mp hx with h1 | h1
    · rw [h1]
      exact h0
    · exact h.1 x h1
  · rw [hu]
    exact h.2


/-- Concrete value of the cell-26 time grid. -/
lemma batch_tspan_val : Batch.tspan = [0, 1/49, 2/49, 3/49, 4/49, 5/49, 6/49, 1/7, 8/49, 9/49, 10/49, 11/49, 12/49, 13/49, 2/7, 15/49, 16/49, 17/49, 18/49, 19/49, 20/49, 3/7, 22/49, 23/49, 24/49, 25/49, 26/49, 27/49, 4/7, 29/49, 30/49, 31/49, 32/49, 33/49, 34/49, 5/7, 36/49, 37/49, 38/49, 39/49, 40/49, 41/49, 6/7, 43/49, 44/49, 45/49, 46/49, 47/49, 48/49, 1] := by
  norm_num [Batch.tspan, linspace, List.range_succ]

/-- Concrete value of the cell-52 volume grid at the rational carrier. -/
lemma pfrGrid_val : pfrGrid = [0, 200/49, 400/49, 600/49, 800/49, 1000/49, 1200/49, 200/7, 1600/49, 1800/49, 2000/49, 2200/49, 2400/49, 2600/49, 400/7, 3000/49, 3200/49, 3400/49, 3600/49, 3800/49, 4000/49, 600/7, 4400/49, 4600/49, 4800/49, 5000/49, 5200/49, 5400/49, 800/7, 5800/49, 6000/49, 6200/49, 6400/49, 6600/49, 6800/49, 1000/7, 7200/49, 7400/49, 7600/49, 7800/49, 8000/49, 8200/49, 1200/7, 8600/49, 8800/49, 9000/49, 9200/49, 9400/49, 9600/49, 200] := by
  norm_num [pfrGrid, linspace, List.range_succ]

/-- C10: for the first-order decay ODEs of the batch example (cell 26)
and the PFR example (cell 52), every integrator trace started from a
positive initial value has all entries strictly positive and strictly
decreasing along the grid. -/
theorem C10_decay_traces_positive_strictly_decreasing (y0 : ℚ) (h0 : 0 < y0) :
    ((∀ x ∈ odeint Batch.ode y0 Batch.tspan 1, 0 < x) ∧
      List.Chain' (fun a b => b < a) (odeint Batch.ode y0 Batch.tspan 1)) ∧
    ((∀ x ∈ odeint pfrDecayOde y0 pfrGrid 1, 0 < x) ∧
      List.Chain' (fun a b => b < a) (odeint pfrDecayOde y0 pfrGrid 1)) := by
  constructor
  · rw [batch_tspan_val]
    apply odeint_pos_decr Batch.ode (-(23 / 100))
    · intro y t
      simp [Batch.ode, Batch.k]
    · exact h0
    · simp only [List.chain_cons, List.Chain.nil, and_true]
      norm_num [decayFactor]
  · rw [pfrGrid_val]
    apply odeint_pos_decr pfrDecayOde (-(23 / 1000))
    · intro y t
      simp only [pfrDecayOde]
      ring
    · exact h0
    · simp only [List.chain_cons, List.Chain.nil, and_true]
      norm_num [decayFactor]

/-- C10 witness: the conclusions at the concrete initial value 2. -/
theorem C10_witness :
    0 < (2 : ℚ) ∧
    (((∀ x ∈ odeint Batch.ode 2 Batch.tspan 1, 0 < x) ∧
      List.Chain' (fun a b => b < a) (odeint Batch.ode 2 Batch.tspan 1)) ∧
    ((∀ x ∈ odeint pfrDecayOde 2 pfrGrid 1, 0 < x) ∧
      List.Chain' (fun a b => b < a) (odeint pfrDecayOde 2 pfrGrid 1))) :=
  ⟨by norm_num, C10_decay_traces_positive_strictly_decreasing 2 (by norm_num)⟩
